import Mathlib

set_option maxRecDepth 40000

/-!
Verification development for the live-reload server (`src/server.py`).

The file shallowly embeds the core operations of the server:

* the WebSocket client registry and the broadcast pass `_notify_clients`
  (clients are modelled with an explicit `sendOk` flag standing for whether
  `await ws.send(...)` succeeds or raises);
* the HTML injection transformation `_serve_html_with_reload`, including a
  faithful model of Python's `str.replace` (which replaces EVERY
  non-overlapping occurrence, scanning left to right) and of UTF-8 encoding;
* the debounce logic of `ReloadHandler._trigger_reload` / `_notify_clients`
  as a step function over a discrete millisecond timeline;
* the watchdog event filtering of `on_modified` / `on_created`;
* a small-step interleaving model of the broadcast loop used to analyse the
  behaviour of `for ws in clients` when another thread registers a client
  while the loop is suspended in `await ws.send(...)`.

Definitions are translated from the source; definitions whose doc comment
says so are written from the spec's words for comparison.
-/

/-! ## Client registry and broadcast pass (`_notify_clients`) -/

/-- A connected WebSocket client as seen by the broadcast loop: its identity
and whether `await ws.send("reload")` would succeed (`sendOk = true`) or
raise (`sendOk = false`). -/
structure Client where
  id : Nat
  sendOk : Bool
deriving DecidableEq

/-- One iteration of the `for ws in clients` loop body of `_notify_clients`:
on success the pair `(ws.id, "reload")` is recorded as sent, on failure `ws`
is added to the `disconnected` set. -/
def notifyFold (acc : List (Nat × String) × List Client) (ws : Client) :
    List (Nat × String) × List Client :=
  if ws.sendOk then (acc.1 ++ [(ws.id, "reload")], acc.2) else (acc.1, acc.2 ++ [ws])

/-- Model of `ReloadHandler._notify_clients` after the debounce sleep: the
`if clients:` guard, the send loop collecting `disconnected`, and
`clients.difference_update(disconnected)`.  Returns the registry after the
pass together with the list of `(client id, message)` pairs sent. -/
def notifyClients (cs : List Client) : List Client × List (Nat × String) :=
  if cs.isEmpty then (cs, [])
  else
    let p := cs.foldl notifyFold ([], [])
    (cs.filter (fun ws => !(p.2.contains ws)), p.1)

/-! ## HTML injection (`_serve_html_with_reload`) -/

/-- The `LIVE_RELOAD_SCRIPT` template of the source, verbatim (Python
triple-quoted string from the module header). -/
def LIVE_RELOAD_SCRIPT : String :=
  "\n<script>\n(function() \x7b\n    const ws = new WebSocket(\x27ws://localhost:PORT_PLACEHOLDER\x27);\n    ws.onopen = () => console.log(\x27[Live Reload] Connected\x27);\n    ws.onmessage = () => \x7b\n        console.log(\x27[Live Reload] Reloading...\x27);\n        window.location.reload();\n    \x7d;\n    ws.onclose = () => console.log(\x27[Live Reload] Disconnected\x27);\n\x7d)();\n</script>\n"

/-- Fuel-driven model of Python `str.replace(pat, rep)`: scan left to right,
replace every non-overlapping occurrence of `pat` by `rep`.  The fuel (one
unit per consumed character) makes the recursion structural; with fuel at
least the length of the string the scan always completes. -/
def replaceAllF (pat rep : List Char) : Nat → List Char → List Char
  | 0, s => s
  | _ + 1, [] => []
  | fuel + 1, c :: cs =>
    if !pat.isEmpty && pat.isPrefixOf (c :: cs) then
      rep ++ replaceAllF pat rep fuel (List.drop pat.length (c :: cs))
    else
      c :: replaceAllF pat rep fuel cs

/-- Python `s.replace(pat, rep)` for a non-empty pattern. -/
def replaceAll (pat rep s : List Char) : List Char :=
  replaceAllF pat rep s.length s

/-- Python's substring test `pat in s`. -/
def containsSub (pat : List Char) : List Char → Bool
  | [] => pat.isEmpty
  | c :: cs => pat.isPrefixOf (c :: cs) || containsSub pat cs

/-- Number of (leftmost, non-overlapping) occurrences of `pat` that the
`str.replace` scan finds, with the same fuel discipline as `replaceAllF`. -/
def countOccsF (pat : List Char) : Nat → List Char → Nat
  | 0, _ => 0
  | _ + 1, [] => 0
  | fuel + 1, c :: cs =>
    if !pat.isEmpty && pat.isPrefixOf (c :: cs) then
      1 + countOccsF pat fuel (List.drop pat.length (c :: cs))
    else
      countOccsF pat fuel cs

/-- Number of occurrences of `pat` in `s` as found by the replace scan. -/
def countOccs (pat s : List Char) : Nat :=
  countOccsF pat s.length s

/-- Characters of the literal `'</body>'`. -/
def bodyCloseChars : List Char := "</body>".toList

/-- Characters of the literal `'</head>'`. -/
def headCloseChars : List Char := "</head>".toList

/-- Characters of the literal `'PORT_PLACEHOLDER'`. -/
def portPlaceholderChars : List Char := "PORT_PLACEHOLDER".toList

/-- The injected snippet for a given WebSocket port:
`LIVE_RELOAD_SCRIPT.replace('PORT_PLACEHOLDER', str(self.ws_port))`. -/
def scriptChars (port : Nat) : List Char :=
  replaceAll portPlaceholderChars (toString port).toList LIVE_RELOAD_SCRIPT.toList

/-- The injection body of `_serve_html_with_reload`:
`if '</body>' in content: content = content.replace('</body>', script + '</body>')`
`elif '</head>' in content: content = content.replace('</head>', script + '</head>')`
`else: content += script`. -/
def injectChars (port : Nat) (content : List Char) : List Char :=
  if containsSub bodyCloseChars content then
    replaceAll bodyCloseChars (scriptChars port ++ bodyCloseChars) content
  else if containsSub headCloseChars content then
    replaceAll headCloseChars (scriptChars port ++ headCloseChars) content
  else
    content ++ scriptChars port

/-- `Inserted snip orig out` holds when `out` consists of exactly the
characters of `orig`, in order and unmodified, with zero or more copies of
`snip` inserted between them: deleting those inserted copies recovers
`orig` exactly. -/
inductive Inserted (snip : List Char) : List Char → List Char → Prop
  | nil : Inserted snip [] []
  | keep (c : Char) {xs ys : List Char} : Inserted snip xs ys →
      Inserted snip (c :: xs) (c :: ys)
  | ins {xs ys : List Char} : Inserted snip xs ys →
      Inserted snip xs (snip ++ ys)

/-! ## UTF-8 encoding and the HTTP response (`_serve_html_with_reload`) -/

/-- UTF-8 encoding of a single character (the bytes `str.encode('utf-8')`
produces for it). -/
def utf8EncodeChar (c : Char) : List Nat :=
  if c.toNat < 128 then [c.toNat]
  else if c.toNat < 2048 then [192 + c.toNat / 64, 128 + c.toNat % 64]
  else if c.toNat < 65536 then
    [224 + c.toNat / 4096, 128 + (c.toNat / 64) % 64, 128 + c.toNat % 64]
  else
    [240 + c.toNat / 262144, 128 + (c.toNat / 4096) % 64,
     128 + (c.toNat / 64) % 64, 128 + c.toNat % 64]

/-- UTF-8 encoding of a character sequence. -/
def utf8Encode : List Char → List Nat
  | [] => []
  | c :: cs => utf8EncodeChar c ++ utf8Encode cs

/-- Modelled from the spec: the number of bytes a character occupies in
UTF-8 (1 below U+0080, 2 below U+0800, 3 below U+10000, else 4). -/
def utf8CharSize (c : Char) : Nat :=
  if c.toNat < 128 then 1
  else if c.toNat < 2048 then 2
  else if c.toNat < 65536 then 3
  else 4

/-- Modelled from the spec: "the UTF-8 byte length of the modified content
(not the character length)" — the sum of per-character UTF-8 sizes. -/
def utf8ByteLength (s : List Char) : Nat :=
  (s.map utf8CharSize).sum

/-- An HTTP response as produced by `_serve_html_with_reload`: either the
200 path (`send_response` / two `send_header` calls / body write) or the
`send_error(500, str(e))` path, whose message is recorded in
`errMessage`. -/
structure HttpResponse where
  status : Nat
  contentType : Option String
  contentLength : Option Nat
  body : List Nat
  errMessage : Option String
deriving DecidableEq

/-- Model of `LiveReloadRequestHandler._serve_html_with_reload`.  The
fallible file read plus UTF-8 decode (`open(path).read()`) is the
`Except String String` input: `.ok content` is a successful read, `.error e`
a raised exception with description `e`.  On success the handler injects the
snippet, sets status 200, content type `text/html; charset=utf-8`, content
length `len(content.encode('utf-8'))`, and writes `content.encode('utf-8')`;
on failure it calls `send_error(500, str(e))`. -/
def serveHtmlWithReload (port : Nat) (readResult : Except String String) :
    HttpResponse :=
  match readResult with
  | .ok content =>
    let injected := injectChars port content.toList
    { status := 200
      contentType := some "text/html; charset=utf-8"
      contentLength := some (utf8Encode injected).length
      body := utf8Encode injected
      errMessage := none }
  | .error e =>
    { status := 500, contentType := none, contentLength := none,
      body := [], errMessage := some e }

/-- A run of the HTTP server over a sequence of HTML requests: each request
is handled by a fresh `LiveReloadRequestHandler` instance with no state
shared between requests, so the run is the per-request map. -/
def handleRequests (port : Nat) (reqs : List (Except String String)) :
    List HttpResponse :=
  reqs.map (serveHtmlWithReload port)

/-! ## Debounce (`_trigger_reload` and the sleep in `_notify_clients`) -/

/-- The debounce quiet interval: `asyncio.sleep(0.1)`, i.e. 100 ms. -/
def debounceWindowMs : Nat := 100

/-- State transition of `_trigger_reload` on a qualifying event at time `t`
(milliseconds).  The state is the deadline of the pending scheduled
notification (if any) paired with the times at which notifications have
fired.  A pending action whose deadline has not been reached is cancelled by
`self.debounce_timer.cancel()`; a pending action whose deadline has passed
has already fired (cancelling a completed future is a no-op).  In both cases
a fresh action is scheduled to fire `debounceWindowMs` after `t`. -/
def debounceStep : Option Nat × List Nat → Nat → Option Nat × List Nat
  | (none, fired), t => (some (t + debounceWindowMs), fired)
  | (some d, fired), t =>
    if t < d then (some (t + debounceWindowMs), fired)
    else (some (t + debounceWindowMs), fired ++ [d])

/-- Process a time-ordered list of qualifying event times starting from the
quiescent state (no pending action, nothing fired). -/
def debounceRun (events : List Nat) : Option Nat × List Nat :=
  events.foldl debounceStep (none, [])

/-- The broadcasts a debounce state eventually produces once no further
events arrive: the already-fired ones plus the pending action, which then
fires at its deadline uncancelled. -/
def finalBroadcasts : Option Nat × List Nat → List Nat
  | (none, fired) => fired
  | (some d, fired) => fired ++ [d]

/-- All broadcast times produced by a finite sequence of qualifying events
(assuming no further event arrives afterwards). -/
def broadcastTimes (events : List Nat) : List Nat :=
  finalBroadcasts (debounceRun events)

/-- A burst: the event times are ordered and each event arrives strictly
before the debounce deadline of the previous one, i.e. within one debounce
window of it. -/
def burstWithinWindow : List Nat → Bool
  | [] => true
  | [_] => true
  | a :: b :: ts => (a ≤ b && b < a + debounceWindowMs) && burstWithinWindow (b :: ts)

/-! ## Filesystem watcher (`ReloadHandler.on_modified` / `on_created`) -/

/-- Kind of a watchdog event delivered to the handler. -/
inductive EvKind
  | modified
  | created
deriving DecidableEq

/-- A watchdog filesystem event: its kind, the `is_directory` flag and the
`src_path` string. -/
structure FsEvent where
  kind : EvKind
  isDirectory : Bool
  srcPath : String
deriving DecidableEq

/-- The extension tuple of the source:
`('.html', '.htm', '.css', '.js', '.json')`. -/
def relevantExtensions : List String :=
  [".html", ".htm", ".css", ".js", ".json"]

/-- Python `event.src_path.endswith(('.html', '.htm', '.css', '.js', '.json'))`:
true when the path ends with at least one of the extensions. -/
def endsWithRelevantExt (path : String) : Bool :=
  relevantExtensions.any (fun ext => ext.toList.isSuffixOf path.toList)

/-- `ReloadHandler.on_modified`: return unchanged on a directory event,
trigger the debounced reload when the path has a relevant extension,
otherwise do nothing. -/
def onModified (st : Option Nat × List Nat) (t : Nat) (e : FsEvent) :
    Option Nat × List Nat :=
  if e.isDirectory then st
  else if endsWithRelevantExt e.srcPath then debounceStep st t
  else st

/-- `ReloadHandler.on_created`: same body as `on_modified`. -/
def onCreated (st : Option Nat × List Nat) (t : Nat) (e : FsEvent) :
    Option Nat × List Nat :=
  if e.isDirectory then st
  else if endsWithRelevantExt e.srcPath then debounceStep st t
  else st

/-- A qualifying change: a non-directory create/modify event whose path ends
in a relevant extension. -/
def qualifies (e : FsEvent) : Bool :=
  !e.isDirectory && endsWithRelevantExt e.srcPath

/-- Dispatch of a watchdog event at time `t` to the handler method for its
kind. -/
def handleFsEvent (st : Option Nat × List Nat) (te : Nat × FsEvent) :
    Option Nat × List Nat :=
  match te.2.kind with
  | .modified => onModified st te.1 te.2
  | .created => onCreated st te.1 te.2

/-- Process a time-ordered list of watchdog events from the quiescent
state. -/
def watcherRun (evs : List (Nat × FsEvent)) : Option Nat × List Nat :=
  evs.foldl handleFsEvent (none, [])

/-- All broadcast times a finite sequence of watchdog events produces. -/
def watcherBroadcastTimes (evs : List (Nat × FsEvent)) : List Nat :=
  finalBroadcasts (watcherRun evs)

/-! ## Interleaved broadcast loop (analysis of `for ws in clients`) -/

/-- State of an in-progress broadcast pass: the live `clients` registry (in
iteration order), the loop position, the messages sent so far and the
`disconnected` set collected so far. -/
structure BState where
  registry : List Client
  idx : Nat
  sent : List (Nat × String)
  disconnected : List Client
deriving DecidableEq

/-- An action interleaved with the broadcast loop: one iteration of the loop
body (`step`), or a registration `clients.add(c)` performed by the WebSocket
accept handler while the loop is suspended in `await ws.send(...)` — nothing
in the code blocks it, as no lock is held. -/
inductive BAct
  | step
  | register (c : Client)

/-- One iteration of `for ws in clients` over the live registry: send
`"reload"` to the client at the current position (recording a failure in
`disconnected`), then advance.  Past the end the loop is finished and the
state no longer changes. -/
def bcastStep (s : BState) : BState :=
  match s.registry.drop s.idx with
  | [] => s
  | ws :: _ =>
    if ws.sendOk then
      { s with idx := s.idx + 1, sent := s.sent ++ [(ws.id, "reload")] }
    else
      { s with idx := s.idx + 1, disconnected := s.disconnected ++ [ws] }

/-- Apply one interleaved action. -/
def bcastAct (s : BState) : BAct → BState
  | .step => bcastStep s
  | .register c => { s with registry := s.registry ++ [c] }

/-- Run a concrete interleaving of loop iterations and registrations. -/
def bcastRun (s : BState) (acts : List BAct) : BState :=
  acts.foldl bcastAct s

/-! ## Theorems -/

theorem notifyFold_fst (cs : List Client) (acc : List (Nat × String) × List Client) :
    (cs.foldl notifyFold acc).1
      = acc.1 ++ (cs.filter (fun ws => ws.sendOk)).map (fun ws => (ws.id, "reload")) := by
  induction cs generalizing acc with
  | nil => simp
  | cons ws cs ih =>
    cases h : ws.sendOk with
    | true => simp [notifyFold, h, ih, List.filter_cons]
    | false => simp [notifyFold, h, ih, List.filter_cons]

theorem notifyFold_snd (cs : List Client) (acc : List (Nat × String) × List Client) :
    (cs.foldl notifyFold acc).2 = acc.2 ++ cs.filter (fun ws => !ws.sendOk) := by
  induction cs generalizing acc with
  | nil => simp
  | cons ws cs ih =>
    cases h : ws.sendOk with
    | true => simp [notifyFold, h, ih, List.filter_cons]
    | false => simp [notifyFold, h, ih, List.filter_cons]

/-- C6: broadcasting with an empty registry completes (the model is a total
function), sends nothing, and leaves the registry unchanged. -/
theorem notify_empty_registry_noop : notifyClients [] = ([], []) := rfl

/-- C9: across every broadcast pass, every message sent on the notification
channel is the single opaque signal "reload". -/
theorem broadcast_only_reload_signal (cs : List Client) :
    ((notifyClients cs).2).all (fun m => m.2 == "reload") = true := by
  by_cases h : cs.isEmpty
  · simp [notifyClients, h]
  · simp only [notifyClients, h, Bool.false_eq_true, if_false]
    rw [notifyFold_fst]
    simp only [List.nil_append, List.all_eq_true, List.mem_map]
    rintro m ⟨ws, _, rfl⟩
    exact beq_self_eq_true _

/-- C3: when the registry is non-empty and some sends fail, every client
whose send succeeds still receives the signal in that pass, and after the
pass exactly the clients whose sends failed have been removed: the registry
is the sub-list of clients whose sends succeeded. -/
theorem notify_isolates_send_failures (cs : List Client)
    (hne : cs ≠ [])
    (hfail : ∃ ws ∈ cs, ws.sendOk = false) :
    (∀ ws ∈ cs, ws.sendOk = true → (ws.id, "reload") ∈ (notifyClients cs).2) ∧
    (notifyClients cs).1 = cs.filter (fun ws => ws.sendOk) ∧
    (∀ ws ∈ cs, ws.sendOk = false → ws ∉ (notifyClients cs).1) := by
  have hemp : cs.isEmpty = false := by
    cases cs with
    | nil => exact absurd rfl hne
    | cons a l => rfl
  have hreg : (notifyClients cs).1 = cs.filter (fun ws => ws.sendOk) := by
    simp only [notifyClients, hemp, Bool.false_eq_true, if_false]
    rw [notifyFold_snd]
    refine List.filter_congr ?_
    intro ws hmem
    cases hok : ws.sendOk with
    | true =>
      have hnm : ws ∉ List.filter (fun w => !w.sendOk) cs := by
        intro hmem2
        have h2 := (List.mem_filter.mp hmem2).2
        simp [hok] at h2
      simp [List.elem_iff, hnm]
    | false =>
      have hm : ws ∈ List.filter (fun w => !w.sendOk) cs := by
        refine List.mem_filter.mpr ⟨hmem, ?_⟩
        simp [hok]
      simp [List.elem_iff, hm]
  refine ⟨?_, hreg, ?_⟩
  · intro ws hmem hok
    simp only [notifyClients, hemp, Bool.false_eq_true, if_false]
    rw [notifyFold_fst]
    simp only [List.nil_append, List.mem_map]
    exact ⟨ws, List.mem_filter.mpr ⟨hmem, hok⟩, rfl⟩
  · intro ws _ hbad hin
    rw [hreg] at hin
    have := (List.mem_filter.mp hin).2
    rw [hbad] at this
    exact Bool.false_ne_true this

/-- C3 witness: registry `{1 (failing), 2, 3}` — clients 2 and 3 receive the
signal and remain registered, client 1 is removed. -/
theorem notify_isolates_send_failures_witness :
    (∀ ws ∈ [Client.mk 1 false, Client.mk 2 true, Client.mk 3 true], ws.sendOk = true →
      (ws.id, "reload")
        ∈ (notifyClients [Client.mk 1 false, Client.mk 2 true, Client.mk 3 true]).2) ∧
    (notifyClients [Client.mk 1 false, Client.mk 2 true, Client.mk 3 true]).1
      = List.filter (fun ws => ws.sendOk)
          [Client.mk 1 false, Client.mk 2 true, Client.mk 3 true] ∧
    (∀ ws ∈ [Client.mk 1 false, Client.mk 2 true, Client.mk 3 true], ws.sendOk = false →
      ws ∉ (notifyClients [Client.mk 1 false, Client.mk 2 true, Client.mk 3 true]).1) :=
  notify_isolates_send_failures
    [Client.mk 1 false, Client.mk 2 true, Client.mk 3 true]
    (by decide) (by decide)

theorem debounce_burst_foldl (ts : List Nat) :
    ∀ (t : Nat) (fired : List Nat), burstWithinWindow (t :: ts) = true →
      ts.foldl debounceStep (some (t + debounceWindowMs), fired)
        = (some (ts.getLastD t + debounceWindowMs), fired) := by
  induction ts with
  | nil => intro t fired _; rfl
  | cons u us ih =>
    intro t fired h
    have h' : (t ≤ u ∧ u < t + debounceWindowMs) ∧ burstWithinWindow (u :: us) = true := by
      simpa [burstWithinWindow, Bool.and_eq_true, decide_eq_true_eq] using h
    have hstep : debounceStep (some (t + debounceWindowMs), fired) u
        = (some (u + debounceWindowMs), fired) := by
      simp [debounceStep, h'.1.2]
    rw [List.foldl_cons, hstep, List.getLastD_cons]
    exact ih u fired h'.2

/-- C2: for every non-empty burst of qualifying events in which each event
arrives within one debounce window of the previous one, exactly one
broadcast is triggered, and it fires one debounce window after the last
event; each event arriving before the pending deadline cancels the pending
action and schedules a fresh one. -/
theorem debounce_coalesces_to_single_broadcast (t : Nat) (ts : List Nat)
    (h : burstWithinWindow (t :: ts) = true) :
    broadcastTimes (t :: ts) = [ts.getLastD t + debounceWindowMs] ∧
    (∀ (d : Nat) (fired : List Nat) (u : Nat), u < d →
      debounceStep (some d, fired) u = (some (u + debounceWindowMs), fired)) := by
  constructor
  · show finalBroadcasts ((t :: ts).foldl debounceStep (none, [])) = _
    rw [List.foldl_cons]
    have h0 : debounceStep (none, []) t = (some (t + debounceWindowMs), []) := rfl
    rw [h0, debounce_burst_foldl ts t [] h]
    rfl
  · intro d fired u hu
    simp [debounceStep, hu]

/-- C2 witness: the burst 0 ms, 50 ms, 120 ms (each gap under 100 ms)
produces the single broadcast at 220 ms. -/
theorem debounce_coalesces_witness :
    burstWithinWindow [0, 50, 120] = true ∧ broadcastTimes [0, 50, 120] = [220] :=
  ⟨by decide, (debounce_coalesces_to_single_broadcast 0 [50, 120] (by decide)).1⟩

theorem handleFsEvent_not_qualifying (st : Option Nat × List Nat) (t : Nat)
    (e : FsEvent) (h : qualifies e = false) : handleFsEvent st (t, e) = st := by
  by_cases hd : e.isDirectory = true
  · cases hk : e.kind <;> simp [handleFsEvent, hk, onModified, onCreated, hd]
  · have hb : e.isDirectory = false := by simpa using hd
    have hext : endsWithRelevantExt e.srcPath = false := by
      simpa [qualifies, hb] using h
    cases hk : e.kind <;> simp [handleFsEvent, hk, onModified, onCreated, hb, hext]

/-- C5: a directory event never qualifies; a non-qualifying event (directory
event or irrelevant extension) leaves the debounce state untouched and never
changes the broadcasts produced by any surrounding event sequence; a
qualifying create/modify event is forwarded to the debounce step. -/
theorem watcher_filters_irrelevant_events (e : FsEvent) (t : Nat)
    (evs1 evs2 : List (Nat × FsEvent)) (st : Option Nat × List Nat) :
    (qualifies e = false → handleFsEvent st (t, e) = st) ∧
    (qualifies e = false →
      watcherBroadcastTimes (evs1 ++ (t, e) :: evs2)
        = watcherBroadcastTimes (evs1 ++ evs2)) ∧
    (e.isDirectory = true → qualifies e = false) ∧
    (qualifies e = true → handleFsEvent st (t, e) = debounceStep st t) := by
  refine ⟨fun h => handleFsEvent_not_qualifying st t e h, fun h => ?_,
    fun h => by simp [qualifies, h], fun h => ?_⟩
  · show finalBroadcasts ((evs1 ++ (t, e) :: evs2).foldl handleFsEvent (none, []))
      = finalBroadcasts ((evs1 ++ evs2).foldl handleFsEvent (none, []))
    rw [List.foldl_append, List.foldl_append, List.foldl_cons,
      handleFsEvent_not_qualifying _ t e h]
  · have h2 : e.isDirectory = false ∧ endsWithRelevantExt e.srcPath = true := by
      simpa [qualifies, Bool.and_eq_true] using h
    cases hk : e.kind <;>
      simp [handleFsEvent, hk, onModified, onCreated, h2.1, h2.2]

/-- C5 witness: a `.png` modification between two runs does not qualify and
does not change the produced broadcasts. -/
theorem watcher_filters_witness :
    qualifies (FsEvent.mk .modified false "logo.png") = false ∧
    watcherBroadcastTimes
        [((0 : Nat), FsEvent.mk .modified false "index.html"),
         ((5 : Nat), FsEvent.mk .modified false "logo.png")]
      = watcherBroadcastTimes [((0 : Nat), FsEvent.mk .modified false "index.html")] :=
  ⟨by decide,
    (watcher_filters_irrelevant_events (FsEvent.mk .modified false "logo.png") 5
      [((0 : Nat), FsEvent.mk .modified false "index.html")] [] (none, [])).2.1
      (by decide)⟩

theorem replaceAllF_of_not_contains (pat rep : List Char) :
    ∀ (fuel : Nat) (s : List Char), containsSub pat s = false →
      replaceAllF pat rep fuel s = s := by
  intro fuel
  induction fuel with
  | zero => intro s _; rfl
  | succ f ih =>
    intro s h
    cases s with
    | nil => rfl
    | cons c cs =>
      have h' : pat.isPrefixOf (c :: cs) = false ∧ containsSub pat cs = false := by
        simpa [containsSub] using h
      simp [replaceAllF, h'.1, ih cs h'.2]

theorem not_contains_of_countOccsF_zero (pat : List Char) (hne : pat ≠ []) :
    ∀ (fuel : Nat) (s : List Char), s.length ≤ fuel → countOccsF pat fuel s = 0 →
      containsSub pat s = false := by
  intro fuel
  induction fuel with
  | zero =>
    intro s hs _
    have h0 : s = [] := List.length_eq_zero.mp (Nat.le_zero.mp hs)
    subst h0
    simpa [containsSub, List.isEmpty_iff] using hne
  | succ f ih =>
    intro s hs h
    cases s with
    | nil => simpa [containsSub, List.isEmpty_iff] using hne
    | cons c cs =>
      by_cases hp : (!pat.isEmpty && pat.isPrefixOf (c :: cs)) = true
      · simp only [countOccsF, if_pos hp] at h
        omega
      · have hne' : pat.isEmpty = false := by
          cases pat with
          | nil => exact absurd rfl hne
          | cons a l => rfl
        have hp' : pat.isPrefixOf (c :: cs) = false := by
          cases hb : pat.isPrefixOf (c :: cs) with
          | false => rfl
          | true => exact absurd (by simp [hne', hb]) hp
        simp only [countOccsF, if_neg hp] at h
        have hlen : cs.length ≤ f := by simp at hs; omega
        simp [containsSub, hp', ih cs hlen h]

theorem replaceAllF_single_occ (pat : List Char) :
    ∀ (fuel : Nat) (s : List Char), s.length ≤ fuel → countOccsF pat fuel s = 1 →
      ∃ a b, s = a ++ pat ++ b ∧ containsSub pat b = false ∧
        ∀ rep, replaceAllF pat rep fuel s = a ++ rep ++ b := by
  intro fuel
  induction fuel with
  | zero => intro s _ h; simp [countOccsF] at h
  | succ f ih =>
    intro s hs h
    cases s with
    | nil => simp [countOccsF] at h
    | cons c cs =>
      by_cases hp : (!pat.isEmpty && pat.isPrefixOf (c :: cs)) = true
      · obtain ⟨hne, hpre⟩ : (!pat.isEmpty) = true ∧ pat.isPrefixOf (c :: cs) = true := by
          simpa using hp
        have hpat_ne : pat ≠ [] := by
          cases pat with
          | nil => simp at hne
          | cons a l => simp
        obtain ⟨t, ht⟩ := List.isPrefixOf_iff_prefix.mp hpre
        have hdrop : List.drop pat.length (c :: cs) = t := by
          rw [← ht]
          exact List.drop_left pat t
        have hplen : 1 ≤ pat.length := by
          cases pat with
          | nil => exact absurd rfl hpat_ne
          | cons a l => simp
        have hlen2 : pat.length + t.length = cs.length + 1 := by
          have h3 := congrArg List.length ht
          simpa [List.length_append] using h3
        have hlen : t.length ≤ f := by simp at hs; omega
        simp only [countOccsF, if_pos hp, hdrop] at h
        have hz : countOccsF pat f t = 0 := by omega
        have hcont := not_contains_of_countOccsF_zero pat hpat_ne f t hlen hz
        refine ⟨[], t, by simpa using ht.symm, hcont, ?_⟩
        intro rep
        simp only [replaceAllF, if_pos hp, hdrop]
        rw [replaceAllF_of_not_contains pat rep f t hcont]
        simp
      · simp only [countOccsF, if_neg hp] at h
        have hlen : cs.length ≤ f := by simp at hs; omega
        obtain ⟨a, b, hsplit, hcont, hrep⟩ := ih cs hlen h
        refine ⟨c :: a, b, by simp [hsplit], hcont, ?_⟩
        intro rep
        simp only [replaceAllF, if_neg hp]
        rw [hrep rep]
        simp

theorem containsSub_append_self (pat : List Char) (hne : pat ≠ []) :
    ∀ (a b : List Char), containsSub pat (a ++ pat ++ b) = true := by
  intro a
  induction a with
  | nil =>
    intro b
    cases pat with
    | nil => exact absurd rfl hne
    | cons p ps =>
      have hform : ([] ++ (p :: ps) ++ b) = p :: (ps ++ b) := by simp
      rw [hform]
      have hpre : (p :: ps).isPrefixOf (p :: (ps ++ b)) = true := by
        refine List.isPrefixOf_iff_prefix.mpr ⟨b, ?_⟩
        simp
      simp only [containsSub]
      rw [hpre, Bool.true_or]
  | cons c a ih =>
    intro b
    have hform : ((c :: a) ++ pat ++ b) = c :: (a ++ pat ++ b) := by simp
    rw [hform]
    simp only [containsSub]
    rw [ih b, Bool.or_true]

theorem Inserted.prepend {snip : List Char} (p : List Char) {xs ys : List Char}
    (h : Inserted snip xs ys) : Inserted snip (p ++ xs) (p ++ ys) := by
  induction p with
  | nil => simpa using h
  | cons c p ih => exact Inserted.keep c ih

theorem Inserted.self_append_snip (snip : List Char) (s : List Char) :
    Inserted snip s (s ++ snip) := by
  induction s with
  | nil => simpa using Inserted.ins (Inserted.nil)
  | cons c cs ih => exact Inserted.keep c ih

theorem replaceAllF_inserted (x pat : List Char) :
    ∀ (fuel : Nat) (s : List Char), s.length ≤ fuel →
      Inserted x s (replaceAllF pat (x ++ pat) fuel s) := by
  intro fuel
  induction fuel with
  | zero =>
    intro s hs
    have h0 : s = [] := List.length_eq_zero.mp (Nat.le_zero.mp hs)
    subst h0
    exact Inserted.nil
  | succ f ih =>
    intro s hs
    cases s with
    | nil => exact Inserted.nil
    | cons c cs =>
      by_cases hp : (!pat.isEmpty && pat.isPrefixOf (c :: cs)) = true
      · obtain ⟨hne, hpre⟩ : (!pat.isEmpty) = true ∧ pat.isPrefixOf (c :: cs) = true := by
          simpa using hp
        obtain ⟨t, ht⟩ := List.isPrefixOf_iff_prefix.mp hpre
        have hdrop : List.drop pat.length (c :: cs) = t := by
          rw [← ht]
          exact List.drop_left pat t
        have hplen : 1 ≤ pat.length := by
          cases pat with
          | nil => simp at hne
          | cons a l => simp
        have hlen2 : pat.length + t.length = cs.length + 1 := by
          have h3 := congrArg List.length ht
          simpa [List.length_append] using h3
        have hlen : t.length ≤ f := by simp at hs; omega
        simp only [replaceAllF, if_pos hp, hdrop]
        rw [← ht, List.append_assoc]
        exact Inserted.ins (Inserted.prepend pat (ih t hlen))
      · simp only [replaceAllF, if_neg hp]
        have hlen : cs.length ≤ f := by simp at hs; omega
        exact Inserted.keep c (ih cs hlen)

/-- C10: for every input document and every port, the injection
transformation only inserts copies of the reload snippet: the output
consists of the original characters, in order and unmodified, with zero or
more copies of the snippet inserted between them, so deleting the inserted
copies recovers the original document exactly. -/
theorem inject_preserves_original_content (port : Nat) (content : List Char) :
    Inserted (scriptChars port) content (injectChars port content) := by
  unfold injectChars replaceAll
  split_ifs with h1 h2
  · exact replaceAllF_inserted (scriptChars port) bodyCloseChars content.length content
      le_rfl
  · exact replaceAllF_inserted (scriptChars port) headCloseChars content.length content
      le_rfl
  · exact Inserted.self_append_snip (scriptChars port) content

/-- C1 (amended): the three insertion strategies apply with the stated
precedence, and the snippet is inserted exactly once immediately before the
closing tag whenever the selected tag occurs exactly once; with neither tag
present the snippet is appended exactly once at the end.  (When the selected
tag occurs more than once, `str.replace` inserts the snippet before every
occurrence — see the counterexample.) -/
theorem inject_insertion_precedence (port : Nat) (content : List Char) :
    (countOccs bodyCloseChars content = 1 →
      ∃ a b, content = a ++ bodyCloseChars ++ b ∧
        injectChars port content = a ++ scriptChars port ++ bodyCloseChars ++ b) ∧
    (containsSub bodyCloseChars content = false →
      countOccs headCloseChars content = 1 →
      ∃ a b, content = a ++ headCloseChars ++ b ∧
        injectChars port content = a ++ scriptChars port ++ headCloseChars ++ b) ∧
    (containsSub bodyCloseChars content = false →
      containsSub headCloseChars content = false →
      injectChars port content = content ++ scriptChars port) := by
  refine ⟨?_, ?_, ?_⟩
  · intro h
    obtain ⟨a, b, hsplit, hcontb, hrep⟩ :=
      replaceAllF_single_occ bodyCloseChars content.length content le_rfl h
    have hcontains : containsSub bodyCloseChars content = true := by
      rw [hsplit]
      exact containsSub_append_self bodyCloseChars (by decide) a b
    refine ⟨a, b, hsplit, ?_⟩
    unfold injectChars replaceAll
    rw [if_pos hcontains, hrep (scriptChars port ++ bodyCloseChars)]
    simp [List.append_assoc]
  · intro h1 h
    obtain ⟨a, b, hsplit, hcontb, hrep⟩ :=
      replaceAllF_single_occ headCloseChars content.length content le_rfl h
    have hcontains : containsSub headCloseChars content = true := by
      rw [hsplit]
      exact containsSub_append_self headCloseChars (by decide) a b
    refine ⟨a, b, hsplit, ?_⟩
    unfold injectChars replaceAll
    rw [if_neg (by simp [h1]), if_pos hcontains, hrep (scriptChars port ++ headCloseChars)]
    simp [List.append_assoc]
  · intro h1 h2
    unfold injectChars
    rw [if_neg (by simp [h1]), if_neg (by simp [h2])]

/-- C1 counterexample: on the document `'</body></body>'` the code inserts
the snippet before BOTH occurrences of `'</body>'` (Python `str.replace`
replaces every occurrence), so the output is not the single insertion before
the first occurrence that the claim predicts. -/
theorem inject_multiple_body_tags_cex :
    injectChars 8001 ("</body></body>".toList)
        = scriptChars 8001 ++ "</body>".toList ++ scriptChars 8001 ++ "</body>".toList ∧
    injectChars 8001 ("</body></body>".toList)
        ≠ scriptChars 8001 ++ "</body></body>".toList :=
  ⟨by decide, by decide⟩

/-- C1 witness: a document with a single `'</body>'` receives exactly one
insertion, immediately before it. -/
theorem inject_insertion_precedence_witness :
    countOccs bodyCloseChars "<html><body>hi</body></html>".toList = 1 ∧
    (∃ a b, "<html><body>hi</body></html>".toList = a ++ bodyCloseChars ++ b ∧
      injectChars 8001 "<html><body>hi</body></html>".toList
        = a ++ scriptChars 8001 ++ bodyCloseChars ++ b) :=
  ⟨by decide,
    (inject_insertion_precedence 8001 "<html><body>hi</body></html>".toList).1 (by decide)⟩

theorem utf8EncodeChar_length (c : Char) :
    (utf8EncodeChar c).length = utf8CharSize c := by
  unfold utf8EncodeChar utf8CharSize
  split_ifs <;> rfl

theorem utf8Encode_length (s : List Char) :
    (utf8Encode s).length = utf8ByteLength s := by
  induction s with
  | nil => rfl
  | cons c cs ih =>
    simp [utf8Encode, utf8ByteLength, utf8EncodeChar_length, ih,
      List.length_append]

/-- C4: the 200 response of the injection responder carries content type
`text/html; charset=utf-8`, a body that is exactly the UTF-8 encoding of the
modified content, and a Content-Length equal to the UTF-8 byte length of the
modified content, which is also exactly the length of the written body. -/
theorem serveHtml_ok_response_fields (port : Nat) (content : String) :
    (serveHtmlWithReload port (Except.ok content)).status = 200 ∧
    (serveHtmlWithReload port (Except.ok content)).contentType
      = some "text/html; charset=utf-8" ∧
    (serveHtmlWithReload port (Except.ok content)).contentLength
      = some (utf8ByteLength (injectChars port content.toList)) ∧
    (serveHtmlWithReload port (Except.ok content)).body
      = utf8Encode (injectChars port content.toList) ∧
    (serveHtmlWithReload port (Except.ok content)).contentLength
      = some (serveHtmlWithReload port (Except.ok content)).body.length := by
  refine ⟨rfl, rfl, ?_, rfl, rfl⟩
  show some (utf8Encode (injectChars port content.toList)).length = _
  rw [utf8Encode_length]

/-- C7: a failed file read or UTF-8 decode produces a 500 response carrying
the failure description for that single request; the handler is a total
function (it does not crash), and requests around the failing one are
answered exactly as they would be in a run without it. -/
theorem serveHtml_error_500_isolated (port : Nat) (e : String)
    (xs ys : List (Except String String)) :
    serveHtmlWithReload port (Except.error e)
      = { status := 500, contentType := none, contentLength := none,
          body := [], errMessage := some e } ∧
    handleRequests port (xs ++ Except.error e :: ys)
      = handleRequests port xs
          ++ serveHtmlWithReload port (Except.error e) :: handleRequests port ys := by
  refine ⟨rfl, ?_⟩
  simp [handleRequests]

/-- C8 (behaviour of the code at the failing scenario): the broadcast loop
iterates the LIVE `clients` set, not a snapshot.  Starting a broadcast with
registry `{1}`, if client 2 registers while the loop is suspended in the
send to client 1 (no lock prevents this), the loop then reaches client 2 and
sends it the reload signal — even though client 2 was not registered when
the broadcast began. -/
theorem broadcast_live_set_late_registrant_receives :
    (Client.mk 2 true) ∉ (BState.mk [Client.mk 1 true] 0 [] []).registry ∧
    (bcastRun (BState.mk [Client.mk 1 true] 0 [] [])
        [BAct.step, BAct.register (Client.mk 2 true), BAct.step]).sent
      = [(1, "reload"), (2, "reload")] :=
  ⟨by decide, by decide⟩
